import Mathlib

/-!
Verification development for the lining firehose ingestion pipeline.

The definitions below are a shallow embedding of the Go sources:
  firehose/types.go   (RepoOperation.DecodeRecord, EnhancedFirehose.Subscribe,
                       PostFromCommitEvent)
  models/models.go    (Firehose.Subscribe, the reconnect goroutine)
  post package        (Post, PostFromFeedPost, ExtractEmbedFromFeedPost,
                       ExtractFacetsFromFeedPost)
  interaction package (Interaction, Follow, Like, Repost, Comment)

Modelling conventions:
  - Go errors are the inductive PErr; a Go `error` result is Option PErr
    (none = nil) or Except PErr for value-returning functions.
  - Go nil pointers and nil slices of reference type are Option.
  - The external go-cid parser and the CBOR codec are black boxes; a CID
    string is taken as parseable whenever it is nonempty, and a block
    payload is represented by its decode result (some FeedPost for bytes
    that decode, none for bytes that fail to decode).
  - A CAR byte archive is represented by the result of parsing it: whether
    the header parses (car.NewCarReader succeeds), the sequence of blocks
    readable in archive order, and whether reading past them hits a non-EOF
    error. The empty byte string has an unparseable header, so it is
    `some { headerOk := false, blocks := [], truncated := false }`,
    while a nil `[]byte` is `none`.
  - time.Now() is threaded through as an explicit `now : Nat` parameter.
-/

namespace Lining

/-- Errors produced inside the pipeline, one constructor per distinct Go
error site (fmt.Errorf call); wrapping errors carry the wrapped error. -/
inductive PErr where
  /-- "no blocks data available to decode" (DecodeRecord) -/
  | noBlocksDecode : PErr
  /-- "no CID available for record" -/
  | noCid : PErr
  /-- "invalid CID: %w" -/
  | invalidCid : String → PErr
  /-- "failed to create CAR reader: %w" -/
  | carReaderFail : PErr
  /-- "error reading block: %w" -/
  | blockReadFail : PErr
  /-- UnmarshalCBOR failure inside DecodeRecord -/
  | cborDecodeFail : PErr
  /-- "block not found in CAR data" -/
  | blockNotFound : PErr
  /-- "no operations in commit event" (PostFromCommitEvent) -/
  | noOps : PErr
  /-- "no blocks data available" (PostFromCommitEvent) -/
  | noBlocksAvailable : PErr
  /-- "failed to decode post: %w" -/
  | decodePostFail : PErr → PErr
  /-- "failed to convert post: %w" (both wrap sites use this message) -/
  | convertPostFail : PErr → PErr
  /-- "image blob is nil" (ExtractEmbedFromFeedPost) -/
  | imageBlobNil : PErr
  /-- "video blob is nil" (ExtractEmbedFromFeedPost) -/
  | videoBlobNil : PErr
  /-- "callbacks cannot be nil" (Firehose.Subscribe) -/
  | nilCallbacks : PErr
  /-- "failed to connect to firehose: %w" -/
  | connectFail : PErr
  /-- a clean end of stream as surfaced by the streaming library: in Go a
  terminated read returns a non-nil error value such as io.EOF or a
  websocket CloseError, modelled by this constructor -/
  | eof : PErr
  /-- an arbitrary application-level error returned by a handler -/
  | userErr : String → PErr
deriving DecidableEq

/-- Decidable equality for Except results, used to evaluate the model at
concrete inputs. -/
instance instDecEqExcept {ε α : Type} [DecidableEq ε] [DecidableEq α] :
    DecidableEq (Except ε α) := fun x y =>
  match x, y with
  | Except.ok a, Except.ok b =>
    if h : a = b then Decidable.isTrue (by rw [h])
    else Decidable.isFalse (by intro hc; cases hc; exact h rfl)
  | Except.error a, Except.error b =>
    if h : a = b then Decidable.isTrue (by rw [h])
    else Decidable.isFalse (by intro hc; cases hc; exact h rfl)
  | Except.ok _, Except.error _ => Decidable.isFalse (by intro hc; cases hc)
  | Except.error _, Except.ok _ => Decidable.isFalse (by intro hc; cases hc)

/-- The two record-extraction errors raised before any parsing: missing
blocks data and missing CID. -/
def isMissingInputErr : PErr → Bool
  | PErr.noBlocksDecode => true
  | PErr.noCid => true
  | _ => false

/-- Abstraction of the external go-cid parser (cid.Parse): any nonempty
string is treated as a syntactically valid CID and CID equality as string
equality. No claim in this development depends on which nonempty strings
go-cid accepts, only on the empty string being rejected. -/
def parseCid (s : String) : Option String :=
  if s = "" then none else some s

/-- A strong record reference (com.atproto.repo.strongRef). -/
structure StrongRef where
  uri : String
  cid : String
deriving DecidableEq

/-- bsky.FeedPost_ReplyRef: root and parent references (Go pointers). -/
structure ReplyRef where
  root : Option StrongRef
  parent : Option StrongRef
deriving DecidableEq

/-- A lexicon blob (util.LexBlob): Ref.String(), MimeType, Size. -/
structure Blob where
  ref : String
  mimeType : String
  size : Int
deriving DecidableEq

/-- bsky.EmbedDefs_AspectRatio (width and height). -/
structure AspectWH where
  width : Int
  height : Int
deriving DecidableEq

/-- bsky.EmbedImages_Image: Alt, AspectRatio pointer, Image blob pointer. -/
structure EmbedImageSrc where
  alt : String
  aspect : Option AspectWH
  image : Option Blob
deriving DecidableEq

/-- bsky.EmbedVideo: Alt pointer, AspectRatio pointer, Video blob pointer
(fields the extractor never reads are omitted). -/
structure EmbedVideoSrc where
  alt : Option String
  aspect : Option AspectWH
  video : Option Blob
deriving DecidableEq

/-- bsky.EmbedExternal_External: Uri, Title, Description, Thumb pointer. -/
structure EmbedExternalSrc where
  uri : String
  title : String
  description : String
  thumb : Option Blob
deriving DecidableEq

/-- bsky.EmbedRecord.Record: the referenced record (the Go code
dereferences the Record pointer without a nil check, so it is not an
Option here). -/
structure EmbedRecordSrc where
  cid : String
  uri : String
deriving DecidableEq

/-- bsky.EmbedRecordWithMedia.Media: a union of the three media kinds (the
Go code dereferences the Media pointer without a nil check). -/
structure EmbedMediaSrc where
  embedImages : Option (List EmbedImageSrc)
  embedVideo : Option EmbedVideoSrc
  embedExternal : Option EmbedExternalSrc
deriving DecidableEq

/-- bsky.FeedPost_Embed: a union, at most one variant non-nil. -/
structure FeedPostEmbedSrc where
  embedImages : Option (List EmbedImageSrc)
  embedVideo : Option EmbedVideoSrc
  embedExternal : Option EmbedExternalSrc
  embedRecord : Option EmbedRecordSrc
  embedRecordWithMedia : Option EmbedMediaSrc
deriving DecidableEq

/-- One feature of a richtext facet: a union of link (Uri), mention (Did)
and tag (Tag); the extractor checks them in that order. -/
structure FacetFeature where
  link : Option String
  mention : Option String
  tagVal : Option String
deriving DecidableEq

/-- bsky.RichtextFacet: byte range plus features. -/
structure FacetSrc where
  byteStart : Int
  byteEnd : Int
  features : List FacetFeature
deriving DecidableEq

/-- bsky.FeedPost restricted to the fields the pipeline reads. Labels
models post.Labels.LabelDefs_SelfLabels.Values, with none standing for
either pointer being nil. -/
structure FeedPost where
  text : String
  createdAt : String
  reply : Option ReplyRef
  embed : Option FeedPostEmbedSrc
  facets : List FacetSrc
  labels : Option (List String)
  langs : List String
  tags : List String
deriving DecidableEq

/-- post.AspectRatio of the target Embed shape. -/
structure AspectOut where
  width : Int
  height : Int
deriving DecidableEq

/-- post.EmbedImage. -/
structure EmbedImage where
  alt : String
  aspect : Option AspectOut
  ref : String
  mimeType : String
  size : Int
deriving DecidableEq

/-- post.EmbedVideo (Captions is never populated by the extractor and is
omitted). -/
structure EmbedVideo where
  alt : String
  aspect : Option AspectOut
  ref : String
  mimeType : String
  size : Int
deriving DecidableEq

/-- post.EmbedExternal. -/
structure EmbedExternal where
  description : String
  uri : String
  thumbRef : String
  title : String
deriving DecidableEq

/-- post.EmbedRecord. -/
structure EmbedRecord where
  cid : String
  uri : String
deriving DecidableEq

/-- post.EmbedRecordWithMedia_Media. -/
structure EmbedMediaOut where
  images : List EmbedImage
  video : Option EmbedVideo
  external : Option EmbedExternal
deriving DecidableEq

/-- post.EmbedRecordWithMedia. -/
structure EmbedRecordWithMedia where
  media : Option EmbedMediaOut
  record : Option EmbedRecord
deriving DecidableEq

/-- post.Embed: the target embed shape. A nil Images slice and an empty one
are both the empty list here. -/
structure Embed where
  images : List EmbedImage
  external : Option EmbedExternal
  record : Option EmbedRecord
  video : Option EmbedVideo
  recordWithMedia : Option EmbedRecordWithMedia
deriving DecidableEq

/-- Convert one source image (with its nil checks) as in the Go loop
bodies of ExtractEmbedFromFeedPost. -/
def convImage (img : EmbedImageSrc) : Except PErr EmbedImage :=
  let aspect := match img.aspect with
    | some a => some { width := a.width, height := a.height : AspectOut }
    | none => none
  match img.image with
  | none => Except.error PErr.imageBlobNil
  | some b =>
    Except.ok { alt := img.alt, aspect := aspect, ref := b.ref,
                mimeType := b.mimeType, size := b.size }

/-- Convert a list of source images, failing on the first nil blob, as the
Go for-loop does. -/
def convImages : List EmbedImageSrc → Except PErr (List EmbedImage)
  | [] => Except.ok []
  | img :: rest =>
    match convImage img with
    | Except.error e => Except.error e
    | Except.ok i =>
      match convImages rest with
      | Except.error e => Except.error e
      | Except.ok is => Except.ok (i :: is)

/-- Convert a source video with its nil checks. -/
def convVideo (v : EmbedVideoSrc) : Except PErr EmbedVideo :=
  let aspect := match v.aspect with
    | some a => some { width := a.width, height := a.height : AspectOut }
    | none => none
  match v.video with
  | none => Except.error PErr.videoBlobNil
  | some b =>
    Except.ok { alt := v.alt.getD "", aspect := aspect, ref := b.ref,
                mimeType := b.mimeType, size := b.size }

/-- Convert a source external embed (thumb ref empty when Thumb is nil). -/
def convExternal (e : EmbedExternalSrc) : EmbedExternal :=
  { description := e.description, uri := e.uri,
    thumbRef := (match e.thumb with | some b => b.ref | none => ""),
    title := e.title }

/-- The initial value `&Embed{Images: make([]*EmbedImage, 0)}`. -/
def emptyEmbed : Embed :=
  { images := [], external := none, record := none, video := none,
    recordWithMedia := none }

/-- post.ExtractEmbedFromFeedPost: the switch over the embed union,
transcribed case for case. -/
def ExtractEmbedFromFeedPost (p : FeedPost) : Except PErr Embed :=
  match p.embed with
  | none => Except.ok emptyEmbed
  | some em =>
    match em.embedImages with
    | some imgs =>
      match convImages imgs with
      | Except.error e => Except.error e
      | Except.ok is => Except.ok { emptyEmbed with images := is }
    | none =>
      match em.embedVideo with
      | some v =>
        match convVideo v with
        | Except.error e => Except.error e
        | Except.ok vo => Except.ok { emptyEmbed with video := some vo }
      | none =>
        match em.embedExternal with
        | some ex => Except.ok { emptyEmbed with external := some (convExternal ex) }
        | none =>
          match em.embedRecord with
          | some r =>
            Except.ok { emptyEmbed with
                        record := some { cid := r.cid, uri := r.uri } }
          | none =>
            match em.embedRecordWithMedia with
            | some rwm =>
              match rwm.embedImages with
              | some imgs =>
                match convImages imgs with
                | Except.error e => Except.error e
                | Except.ok is =>
                  Except.ok { emptyEmbed with
                    recordWithMedia := some
                      { media := some { images := is, video := none, external := none },
                        record := none } }
              | none =>
                match rwm.embedVideo with
                | some v =>
                  match convVideo v with
                  | Except.error e => Except.error e
                  | Except.ok vo =>
                    Except.ok { emptyEmbed with
                      recordWithMedia := some
                        { media := some { images := [], video := some vo, external := none },
                          record := none } }
                | none =>
                  match rwm.embedExternal with
                  | some ex =>
                    Except.ok { emptyEmbed with
                      recordWithMedia := some
                        { media := some { images := [], video := none,
                                          external := some (convExternal ex) },
                          record := none } }
                  | none => Except.ok emptyEmbed
            | none => Except.ok emptyEmbed

/-- post.FacetType of the extracted facet (Type string plus the variant
payloads; Uri for links, Did for mentions, Tag for tags). -/
structure FacetKind where
  typeName : String
  link : Option String
  mention : Option String
  tagVal : Option String
deriving DecidableEq

/-- post.FacetByteSlice. -/
structure FacetByteSlice where
  byteStart : Int
  byteEnd : Int
deriving DecidableEq

/-- post.Facet. The Text field is a byte slice of the post text (Go strings
are byte sequences), kept here as the list of bytes. -/
structure Facet where
  kind : FacetKind
  index : FacetByteSlice
  text : List UInt8
deriving DecidableEq

/-- The Go helper min over int64. -/
def goMin (a b : Int) : Int := if a < b then a else b

/-- The UTF-8 bytes of a string (Go string indexing is byte indexing). -/
def textBytes (s : String) : List UInt8 := s.toUTF8.toList

/-- Byte slice bs[start:stop] of Go. Go panics when the indices are out of
range (negative, start past stop, or stop past the length); after the
extractor clamps stop to the length, the remaining panics have no claim
depending on them and the model clamps instead. -/
def sliceBytes (bs : List UInt8) (start stop : Int) : List UInt8 :=
  (bs.take stop.toNat).drop start.toNat

/-- post.ExtractFacetsFromFeedPost: the nested loop over facets and their
features, with the end index clamped by goMin and unknown features
skipped. -/
def ExtractFacetsFromFeedPost (p : FeedPost) : List Facet :=
  p.facets.flatMap (fun fa =>
    fa.features.filterMap (fun fe =>
      let istart := fa.byteStart
      let istop := goMin fa.byteEnd (Int.ofNat (textBytes p.text).length)
      let idx : FacetByteSlice := { byteStart := istart, byteEnd := istop }
      let txt := sliceBytes (textBytes p.text) istart istop
      match fe.link with
      | some uri =>
        some { kind := { typeName := "app.bsky.richtext.facet#link",
                         link := some uri, mention := none, tagVal := none },
               index := idx, text := txt }
      | none =>
        match fe.mention with
        | some did =>
          some { kind := { typeName := "app.bsky.richtext.facet#mention",
                           link := none, mention := some did, tagVal := none },
                 index := idx, text := txt }
        | none =>
          match fe.tagVal with
          | some tg =>
            some { kind := { typeName := "app.bsky.richtext.facet#tag",
                             link := none, mention := none, tagVal := some tg },
                   index := idx, text := txt }
          | none => none))

/-- post.Post: the user-facing post shape. The count fields stay zero in
the conversions modelled here. -/
structure Post where
  repo : String
  rkey : String
  likes : Int := 0
  quotes : Int := 0
  replies : Int := 0
  reposts : Int := 0
  text : String
  createdAt : String
  embed : Option Embed
  facets : List Facet
  labels : List String
  langs : List String
  tags : List String
  replyUri : String
  replyRef : Option ReplyRef
deriving DecidableEq

/-- post.(*Post).Uri: the AT URI of the post. -/
def Post.Uri (p : Post) : String :=
  "at://" ++ p.repo ++ "/app.bsky.feed.post/" ++ p.rkey

/-- post.PostFromFeedPost: convert a decoded record to the Post shape. -/
def PostFromFeedPost (p : FeedPost) (repo rkey : String) : Except PErr Post :=
  let labels := match p.labels with
    | some vs => vs
    | none => []
  match ExtractEmbedFromFeedPost p with
  | Except.error e => Except.error e
  | Except.ok embed =>
    let replyUri := match p.reply with
      | some r => (match r.root with | some root => root.uri | none => "")
      | none => ""
    Except.ok { repo := repo, rkey := rkey,
                text := p.text, createdAt := p.createdAt,
                embed := some embed,
                facets := ExtractFacetsFromFeedPost p,
                labels := labels, langs := p.langs, tags := p.tags,
                replyUri := replyUri, replyRef := p.reply }

/-- One content-addressed block of a CAR archive: its CID rendered as a
string and its payload, represented by the decode result of its raw bytes
(some r when the bytes UnmarshalCBOR to r, none when decoding fails). -/
structure CarBlock where
  cid : String
  record : Option FeedPost
deriving DecidableEq

/-- The parse of a CAR byte archive: whether car.NewCarReader succeeds on
its header, the blocks readable in archive order, and whether reading past
them raises a non-EOF error. The empty byte string parses to
headerOk = false with no blocks. -/
structure CarArchive where
  headerOk : Bool
  blocks : List CarBlock
  truncated : Bool
deriving DecidableEq

/-- firehose.RepoOperation. Blocks is a Go []byte, nil when absent, and is
represented by the parse of those bytes (none for a nil slice). -/
structure RepoOperation where
  action : String
  path : String
  cid : String
  blocks : Option CarArchive
deriving DecidableEq

/-- The scanning loop of DecodeRecord: read blocks in archive order until
one matches the target CID; decode it; EOF without a match is
blockNotFound and a mid-read failure is blockReadFail. -/
def findBlock (rc : String) (truncated : Bool) : List CarBlock → Except PErr FeedPost
  | [] =>
    if truncated then Except.error PErr.blockReadFail
    else Except.error PErr.blockNotFound
  | b :: rest =>
    if b.cid = rc then
      match b.record with
      | some r => Except.ok r
      | none => Except.error PErr.cborDecodeFail
    else findBlock rc truncated rest

/-- firehose.(*RepoOperation).DecodeRecord for a bsky.FeedPost target (the
only target the pipeline uses; bsky.FeedPost implements UnmarshalCBOR so
the non-cborer branch is unreachable). -/
def RepoOperation.DecodeRecord (op : RepoOperation) : Except PErr FeedPost :=
  match op.blocks with
  | none => Except.error PErr.noBlocksDecode
  | some ar =>
    if op.cid = "" then Except.error PErr.noCid
    else
      match parseCid op.cid with
      | none => Except.error (PErr.invalidCid op.cid)
      | some rc =>
        if ar.headerOk then findBlock rc ar.truncated ar.blocks
        else Except.error PErr.carReaderFail

/-- firehose.CommitEvent. -/
structure CommitEvent where
  repo : String
  time : String
  ops : List RepoOperation
deriving DecidableEq

/-- strings.HasPrefix, transcribed over the character lists of the two
strings (the prefixes tested here are ASCII, where character and byte
prefixes agree). -/
def strStartsWith (s pre : String) : Bool :=
  pre.data.isPrefixOf s.data

/-- The segment of a character list after its last slash: scanning left to
right, a slash resets the accumulated segment. -/
def lastSegment (cs : List Char) : List Char :=
  cs.foldl (fun acc c => if c = '/' then [] else acc ++ [c]) []

/-- The rkey derivation op.Path[strings.LastIndex(op.Path, "/")+1:]: the
trailing segment after the last slash (the whole string when there is no
slash). -/
def trailingSegment (path : String) : String :=
  String.mk (lastSegment path.data)

/-- firehose.PostFromCommitEvent. Note: it always decodes evt.Ops[0] and
derives the rkey from evt.Ops[0].Path, regardless of which operation of
the commit is being processed. -/
def PostFromCommitEvent (evt : CommitEvent) : Except PErr Post :=
  match evt.ops with
  | [] => Except.error PErr.noOps
  | op :: _ =>
    if op.cid = "" then Except.error PErr.noCid
    else
      match op.blocks with
      | none => Except.error PErr.noBlocksAvailable
      | some _ =>
        match op.DecodeRecord with
        | Except.error e => Except.error (PErr.decodePostFail e)
        | Except.ok p =>
          let rkey := trailingSegment op.path
          match PostFromFeedPost p evt.repo rkey with
          | Except.error e => Except.error (PErr.convertPostFail e)
          | Except.ok np => Except.ok np

/-- firehose.HandleEvent. -/
structure HandleEvent where
  did : String
  handle : String
deriving DecidableEq

/-- firehose.InfoEvent. -/
structure InfoEvent where
  name : String
  message : String
deriving DecidableEq

/-- firehose.MigrateEvent. -/
structure MigrateEvent where
  did : String
  migrateTo : String
deriving DecidableEq

/-- firehose.TombstoneEvent. -/
structure TombstoneEvent where
  did : String
  time : String
deriving DecidableEq

/-- interaction.Interaction. CreatedAt is the time.Now() value threaded in
as an explicit parameter. -/
structure Interaction where
  actor : String
  subject : String
  createdAt : Nat
deriving DecidableEq

/-- interaction.Follow. -/
structure Follow where
  interaction : Interaction
deriving DecidableEq

/-- interaction.Like. -/
structure Like where
  interaction : Interaction
  uri : String
deriving DecidableEq

/-- interaction.Repost. -/
structure Repost where
  interaction : Interaction
  uri : String
deriving DecidableEq

/-- interaction.Comment. -/
structure Comment where
  interaction : Interaction
  uri : String
  replyTo : String
  text : String
deriving DecidableEq

/-- The typed events the demultiplexer dispatches to filtered handler
lists: the five domain events plus the four passthrough kinds. -/
inductive Ev where
  | post : Post → Ev
  | comment : Comment → Ev
  | follow : Follow → Ev
  | like : Like → Ev
  | repost : Repost → Ev
  | handleEv : HandleEvent → Ev
  | infoEv : InfoEvent → Ev
  | migrateEv : MigrateEvent → Ev
  | tombstoneEv : TombstoneEvent → Ev
deriving DecidableEq

/-- One observable step of commit processing: a raw-operation handler
invocation, a call into the binary record extractor (PostFromCommitEvent,
which runs DecodeRecord), a filter evaluation, or a handler invocation. -/
inductive Step where
  | rawOp : Nat → Step
  | extractAttempt : Step
  | filterEval : Ev → Nat → Nat → Bool → Step
  | invoke : Ev → Nat → Step
deriving DecidableEq

/-- The event a step carries, when it carries one. -/
def evOf : Step → Option Ev
  | Step.filterEval e _ _ _ => some e
  | Step.invoke e _ => some e
  | _ => none

/-- The events delivered to handlers, in invocation order. -/
def invokedEvents (t : List Step) : List Ev :=
  t.filterMap (fun s => match s with
    | Step.invoke e _ => some e
    | _ => none)

/-- A handler together with its filter list (the *HandlerWithFilter
structs, which all share this shape). A handler returns some error or
none for a nil error. -/
structure HandlerWithFilter (α : Type) where
  filters : List (α → Bool)
  handler : α → Option PErr

/-- The per-handler filter loop: evaluate filters in list order, stopping
at the first that rejects. Returns the evaluation steps and the final
shouldProcess flag. h is the handler index, n the index of the first
filter in fs. -/
def runFilters {α : Type} (wrap : α → Ev) (x : α) (h : Nat) :
    List (α → Bool) → Nat → List Step × Bool
  | [], _ => ([], true)
  | f :: fs, n =>
    if f x then
      let r := runFilters wrap x h fs (n + 1)
      (Step.filterEval (wrap x) h n true :: r.1, r.2)
    else ([Step.filterEval (wrap x) h n false], false)

/-- The handler dispatch loop shared by every event kind: walk the
registered (filters, handler) pairs in order, invoke those whose filters
all accept, and abort with the first handler error. n is the index of the
first handler in hs. -/
def runHandlers {α : Type} (wrap : α → Ev) (x : α) :
    List (HandlerWithFilter α) → Nat → List Step × Option PErr
  | [], _ => ([], none)
  | hf :: rest, n =>
    let fr := runFilters wrap x n hf.filters 0
    if fr.2 then
      match hf.handler x with
      | some e => (fr.1 ++ [Step.invoke (wrap x) n], some e)
      | none =>
        let rr := runHandlers wrap x rest (n + 1)
        (fr.1 ++ Step.invoke (wrap x) n :: rr.1, rr.2)
    else
      let rr := runHandlers wrap x rest (n + 1)
      (fr.1 ++ rr.1, rr.2)

/-- The raw-operation handler loop: invoke each raw handler with the
current operation, aborting on the first error. -/
def runRawList (op : RepoOperation) :
    List (RepoOperation → Option PErr) → Nat → List Step × Option PErr
  | [], _ => ([], none)
  | h :: rest, n =>
    match h op with
    | some e => ([Step.rawOp n], some e)
    | none =>
      let r := runRawList op rest (n + 1)
      (Step.rawOp n :: r.1, r.2)

/-- firehose.FirehoseCallbacks: the five low-level notification callbacks,
each a Go function pointer (nil modelled as none). A callback returns the
processing steps it performed and an optional error. -/
structure FirehoseCallbacks where
  onCommit : Option (CommitEvent → List Step × Option PErr) := none
  onHandle : Option (HandleEvent → List Step × Option PErr) := none
  onInfo : Option (InfoEvent → List Step × Option PErr) := none
  onMigrate : Option (MigrateEvent → List Step × Option PErr) := none
  onTombstone : Option (TombstoneEvent → List Step × Option PErr) := none

/-- firehose.EnhancedFirehoseCallbacks: the embedded base callbacks plus
the per-kind registration lists; the Go zero value has every list nil. -/
structure EnhancedFirehoseCallbacks where
  base : Option FirehoseCallbacks := none
  handlers : List (RepoOperation → Option PErr) := []
  postHandlers : List (HandlerWithFilter Post) := []
  handleHandlers : List (HandlerWithFilter HandleEvent) := []
  infoHandlers : List (HandlerWithFilter InfoEvent) := []
  migrateHandlers : List (HandlerWithFilter MigrateEvent) := []
  tombstoneHandlers : List (HandlerWithFilter TombstoneEvent) := []
  followHandlers : List (HandlerWithFilter Follow) := []
  likeHandlers : List (HandlerWithFilter Like) := []
  repostHandlers : List (HandlerWithFilter Repost) := []
  commentHandlers : List (HandlerWithFilter Comment) := []

/-- The Comment synthesized for a reply post: actor = commit repo,
subject = operation path, uri = post AT URI, replyTo = the reply root URI
stored on the post, text = post text. -/
def mkComment (repo path : String) (now : Nat) (p : Post) : Comment :=
  { interaction := { actor := repo, subject := path, createdAt := now },
    uri := Post.Uri p, replyTo := p.replyUri, text := p.text }

/-- The Follow synthesized for a follow-collection operation. -/
def mkFollow (repo path : String) (now : Nat) : Follow :=
  { interaction := { actor := repo, subject := path, createdAt := now } }

/-- The Like synthesized for a like-collection create. -/
def mkLike (repo path : String) (now : Nat) : Like :=
  { interaction := { actor := repo, subject := path, createdAt := now },
    uri := path }

/-- The Repost synthesized for a repost-collection create. -/
def mkRepost (repo path : String) (now : Nat) : Repost :=
  { interaction := { actor := repo, subject := path, createdAt := now },
    uri := path }

/-- The post branch of the enhanced OnCommit loop body: when post handlers
are registered and the path is in the post collection, a create with a
non-empty cid is converted via PostFromCommitEvent (a conversion failure
fails the commit, wrapped as convertPostFail), the post handlers are
dispatched, and afterwards, when comment handlers are registered and the
post has a non-empty reply root URI, the synthesized Comment is
dispatched. -/
def postBranch (cbs : EnhancedFirehoseCallbacks) (evt : CommitEvent)
    (now : Nat) (op : RepoOperation) : List Step × Option PErr :=
  if 0 < cbs.postHandlers.length ∧ strStartsWith op.path "app.bsky.feed.post" = true then
    if op.action = "create" ∧ op.cid ≠ "" then
      match PostFromCommitEvent evt with
      | Except.error e => ([Step.extractAttempt], some (PErr.convertPostFail e))
      | Except.ok p =>
        let hres := runHandlers Ev.post p cbs.postHandlers 0
        match hres.2 with
        | some e => (Step.extractAttempt :: hres.1, some e)
        | none =>
          if 0 < cbs.commentHandlers.length ∧ p.replyUri ≠ "" then
            let cres := runHandlers Ev.comment (mkComment evt.repo op.path now p)
              cbs.commentHandlers 0
            (Step.extractAttempt :: hres.1 ++ cres.1, cres.2)
          else (Step.extractAttempt :: hres.1, none)
    else ([], none)
  else ([], none)

/-- The follow, like and repost blocks of the enhanced OnCommit loop body,
run after the post branch: follows need no particular action, likes and
reposts require action create. -/
def interactionTail (cbs : EnhancedFirehoseCallbacks) (repo : String)
    (now : Nat) (op : RepoOperation) : List Step × Option PErr :=
  let w :=
    if 0 < cbs.followHandlers.length ∧ strStartsWith op.path "app.bsky.graph.follow" = true then
      runHandlers Ev.follow (mkFollow repo op.path now) cbs.followHandlers 0
    else ([], none)
  match w.2 with
  | some e => (w.1, some e)
  | none =>
    let l :=
      if 0 < cbs.likeHandlers.length ∧ strStartsWith op.path "app.bsky.feed.like" = true
          ∧ op.action = "create" then
        runHandlers Ev.like (mkLike repo op.path now) cbs.likeHandlers 0
      else ([], none)
    match l.2 with
    | some e => (w.1 ++ l.1, some e)
    | none =>
      let r :=
        if 0 < cbs.repostHandlers.length ∧ strStartsWith op.path "app.bsky.feed.repost" = true
            ∧ op.action = "create" then
          runHandlers Ev.repost (mkRepost repo op.path now) cbs.repostHandlers 0
        else ([], none)
      (w.1 ++ l.1 ++ r.1, r.2)

/-- One iteration of the enhanced OnCommit loop: raw handlers, then the
post branch, then the interaction blocks, each aborting the iteration on
error as the Go returns do. -/
def processOp (cbs : EnhancedFirehoseCallbacks) (evt : CommitEvent)
    (now : Nat) (op : RepoOperation) : List Step × Option PErr :=
  let raw := runRawList op cbs.handlers 0
  match raw.2 with
  | some e => (raw.1, some e)
  | none =>
    let pb := postBranch cbs evt now op
    match pb.2 with
    | some e => (raw.1 ++ pb.1, some e)
    | none =>
      let it := interactionTail cbs evt.repo now op
      (raw.1 ++ pb.1 ++ it.1, it.2)

/-- The enhanced OnCommit loop over the operations of a commit, in commit
order, aborting on the first error. -/
def onCommitOps (cbs : EnhancedFirehoseCallbacks) (evt : CommitEvent)
    (now : Nat) : List RepoOperation → List Step × Option PErr
  | [] => ([], none)
  | op :: rest =>
    let r := processOp cbs evt now op
    match r.2 with
    | some e => (r.1, some e)
    | none =>
      let r2 := onCommitOps cbs evt now rest
      (r.1 ++ r2.1, r2.2)

/-- The OnCommit callback that EnhancedFirehose.Subscribe installs. -/
def onCommit (cbs : EnhancedFirehoseCallbacks) (now : Nat)
    (evt : CommitEvent) : List Step × Option PErr :=
  onCommitOps cbs evt now evt.ops

/-- The base FirehoseCallbacks that EnhancedFirehose.Subscribe builds from
an enhanced callback set: all five callbacks are non-nil closures; the
four passthrough kinds dispatch their registration lists directly. -/
def mkBaseCallbacks (now : Nat) (cbs : EnhancedFirehoseCallbacks) : FirehoseCallbacks :=
  { onCommit := some (onCommit cbs now),
    onHandle := some (fun evt => runHandlers Ev.handleEv evt cbs.handleHandlers 0),
    onInfo := some (fun evt => runHandlers Ev.infoEv evt cbs.infoHandlers 0),
    onMigrate := some (fun evt => runHandlers Ev.migrateEv evt cbs.migrateHandlers 0),
    onTombstone := some (fun evt => runHandlers Ev.tombstoneEv evt cbs.tombstoneHandlers 0) }

/-- One decoded notification arriving on a stream, at the boundary the
external streaming library delivers (spec section 1 treats the on-wire
framing as a black box yielding these five kinds). -/
inductive Frame where
  | commit : CommitEvent → Frame
  | handleChange : HandleEvent → Frame
  | info : InfoEvent → Frame
  | migrate : MigrateEvent → Frame
  | tombstone : TombstoneEvent → Frame
deriving DecidableEq

/-- The behavior of one connection attempt of the transport session, taken
as an input to the supervisor model: whether the websocket dial succeeds,
the frames the read loop delivers, and how events.HandleRepoStream
returns. A terminated stream returns a non-nil Go error — a clean end of
stream surfaces as a non-nil value such as io.EOF or a websocket
CloseError, modelled by some PErr.eof — while none models a nil error
return, after which the goroutine simply exits. -/
structure SessionBehavior where
  connectOk : Bool
  frames : List Frame
  runErr : Option PErr
deriving DecidableEq

/-- Observable actions of Firehose.Subscribe and its reconnect goroutine,
generic in the type κ of the callback-set value so that the identity of
the callbacks used at each point is recorded. -/
inductive SupStep (κ : Type) where
  | connectAttempt : κ → SupStep κ
  | connectFailed : SupStep κ
  | frameDelivered : κ → Frame → SupStep κ
  | sleep : Nat → SupStep κ
deriving DecidableEq

/-- The callback set a supervisor step uses, when it uses one. -/
def stepCb {κ : Type} : SupStep κ → Option κ
  | SupStep.connectAttempt cb => some cb
  | SupStep.frameDelivered cb _ => some cb
  | _ => none

/-- Whether a supervisor step is a connection attempt. -/
def isConnectStep {κ : Type} : SupStep κ → Bool
  | SupStep.connectAttempt _ => true
  | _ => false

/-- Firehose.Subscribe unrolled over the behaviors of its successive
connection attempts: dial (recording the callback set used); on dial
failure stop (the first call returns the error, a reconnect only logs
it); on success deliver the frames of the read loop and, when
HandleRepoStream returns a non-nil error, sleep the fixed 5 second delay
and re-invoke Subscribe with the same callback set; a nil return ends the
goroutine without reconnecting. The list bounds how many attempts are
observed. -/
def subscribeRun {κ : Type} (cb : κ) : List SessionBehavior → List (SupStep κ)
  | [] => []
  | s :: rest =>
    SupStep.connectAttempt cb ::
      (if s.connectOk then
        (s.frames.map (SupStep.frameDelivered cb)) ++
          (match s.runErr with
           | some _ => SupStep.sleep 5 :: subscribeRun cb rest
           | none => [])
      else [SupStep.connectFailed])

/-- Firehose.Subscribe: the nil-callbacks check, then the supervised
stream. Returns the observable trace and the immediate return value of
the call (an error when callbacks are nil or the first dial fails; nil
otherwise, the stream running in its goroutine). -/
def baseSubscribe {κ : Type} (cb : Option κ) (sessions : List SessionBehavior) :
    List (SupStep κ) × Option PErr :=
  match cb with
  | none => ([], some PErr.nilCallbacks)
  | some c =>
    (subscribeRun c sessions,
     match sessions with
     | [] => none
     | s :: _ => if s.connectOk then none else some PErr.connectFail)

/-- EnhancedFirehose.Subscribe: a nil enhanced callback set is replaced by
the zero value, the base callback set is built from it, and the base
Subscribe is invoked with that (non-nil) set. -/
def enhancedSubscribe (now : Nat) (cbs : Option EnhancedFirehoseCallbacks)
    (sessions : List SessionBehavior) : List (SupStep FirehoseCallbacks) × Option PErr :=
  let cbs := match cbs with
    | none => ({} : EnhancedFirehoseCallbacks)
    | some c => c
  baseSubscribe (some (mkBaseCallbacks now cbs)) sessions

/-- The step list of k consecutive accepting filter evaluations starting
at filter index n, for event e and handler index h. -/
def evalRun (e : Ev) (h n : Nat) : Nat → List Step
  | 0 => []
  | k + 1 => Step.filterEval e h n true :: evalRun e h (n + 1) k

/-- Concrete fixture: the post record {text: "hello", reply: null}. -/
def helloRecord : FeedPost :=
  { text := "hello", createdAt := "", reply := none, embed := none,
    facets := [], labels := none, langs := [], tags := [] }

/-- Concrete fixture: an archive holding helloRecord at CID bafyc1. -/
def helloArchive : CarArchive :=
  { headerOk := true,
    blocks := [{ cid := "bafyc1", record := some helloRecord }],
    truncated := false }

/-- Concrete fixture: the create operation of the end-to-end scenario. -/
def helloOp : RepoOperation :=
  { action := "create", path := "app.bsky.feed.post/3k2x", cid := "bafyc1",
    blocks := some helloArchive }

/-- Concrete fixture: the end-to-end commit of the scenario. -/
def helloEvt : CommitEvent :=
  { repo := "did:plc:abc", time := "t", ops := [helloOp] }

/-- Concrete fixture: one post handler whose filter accepts everything,
plus one comment handler, so that the absence of comment events is
observable. -/
def helloCbs : EnhancedFirehoseCallbacks :=
  { postHandlers := [{ filters := [fun _ => true], handler := fun _ => none }],
    commentHandlers := [{ filters := [], handler := fun _ => none }] }

/-- Concrete fixture: the Post the scenario is expected to produce. -/
def helloPost : Post :=
  { repo := "did:plc:abc", rkey := "3k2x", text := "hello", createdAt := "",
    embed := some emptyEmbed, facets := [], labels := [], langs := [],
    tags := [], replyUri := "", replyRef := none }

/-- Concrete fixture: a post record stored at CID bafyc0 whose text
distinguishes it from the record at bafyc1. -/
def firstRecord : FeedPost :=
  { text := "first", createdAt := "", reply := none, embed := none,
    facets := [], labels := none, langs := [], tags := [] }

/-- Concrete fixture: a second post record, stored at CID bafyc1 of the
two-operation archive. -/
def secondRecord : FeedPost :=
  { text := "second", createdAt := "", reply := none, embed := none,
    facets := [], labels := none, langs := [], tags := [] }

/-- Concrete fixture: an archive holding firstRecord at bafyc0 and
secondRecord at bafyc1. -/
def twoBlockArchive : CarArchive :=
  { headerOk := true,
    blocks := [{ cid := "bafyc0", record := some firstRecord },
               { cid := "bafyc1", record := some secondRecord }],
    truncated := false }

/-- Concrete fixture: the first create operation of the two-operation
commit, with rkey aaa and record bafyc0. -/
def twoOpsFirst : RepoOperation :=
  { action := "create", path := "app.bsky.feed.post/aaa", cid := "bafyc0",
    blocks := some twoBlockArchive }

/-- Concrete fixture: the second create operation of the two-operation
commit, with rkey bbb and record bafyc1. -/
def twoOpsSecond : RepoOperation :=
  { action := "create", path := "app.bsky.feed.post/bbb", cid := "bafyc1",
    blocks := some twoBlockArchive }

/-- Concrete fixture: a commit carrying two post creates. -/
def twoOpsEvt : CommitEvent :=
  { repo := "did:plc:abc", time := "t", ops := [twoOpsFirst, twoOpsSecond] }

/-- Concrete fixture: a single unfiltered post handler. -/
def oneHandlerCbs : EnhancedFirehoseCallbacks :=
  { postHandlers := [{ filters := [], handler := fun _ => none }] }

/-- Concrete fixture: the Post extracted from operation 0 of the
two-operation commit (rkey aaa, text "first"). -/
def firstPost : Post :=
  { repo := "did:plc:abc", rkey := "aaa", text := "first", createdAt := "",
    embed := some emptyEmbed, facets := [], labels := [], langs := [],
    tags := [], replyUri := "", replyRef := none }

/-- Concrete fixture: an operation whose Blocks is a present but empty
byte slice: the empty byte string parses to no CAR header and no blocks,
while the cid is a valid nonempty CID string. -/
def emptyBytesOp : RepoOperation :=
  { action := "create", path := "app.bsky.feed.post/x", cid := "bafyc1",
    blocks := some { headerOk := false, blocks := [], truncated := false } }

/-- Concrete fixture: an update operation on the post collection whose cid
is valid and whose archive contains the matching block. -/
def updateOp : RepoOperation :=
  { action := "update", path := "app.bsky.feed.post/3k2x", cid := "bafyc1",
    blocks := some helloArchive }

/-- Concrete fixture: a raw handler plus a post handler. -/
def rawCbs : EnhancedFirehoseCallbacks :=
  { handlers := [fun _ => none],
    postHandlers := [{ filters := [], handler := fun _ => none }] }

/-- Concrete fixture: a registration set with no post handlers (a raw
handler and a comment handler only). -/
def noPostCbs : EnhancedFirehoseCallbacks :=
  { handlers := [fun _ => none],
    commentHandlers := [{ filters := [], handler := fun _ => none }] }

/-- Concrete fixture: an unfiltered post handler that succeeds. -/
def okPostHandler : HandlerWithFilter Post :=
  { filters := [], handler := fun _ => none }

/-- Concrete fixture: an unfiltered post handler that fails. -/
def errPostHandler : HandlerWithFilter Post :=
  { filters := [], handler := fun _ => some (PErr.userErr "boom") }

/-- Concrete fixture: three post handlers of which the second fails. -/
def c7Cbs : EnhancedFirehoseCallbacks :=
  { postHandlers := [okPostHandler, errPostHandler, okPostHandler] }

/-- Concrete fixture: a session that connects, delivers one info frame
and terminates with the end-of-stream error. -/
def sessA : SessionBehavior :=
  { connectOk := true,
    frames := [Frame.info { name := "a", message := "" }],
    runErr := some PErr.eof }

/-- Concrete fixture: a session that connects, delivers one info frame
and keeps running (no termination observed). -/
def sessB : SessionBehavior :=
  { connectOk := true,
    frames := [Frame.info { name := "b", message := "" }],
    runErr := none }

/-- Concrete fixture: a delete operation carrying neither blocks nor cid
(Blocks is a nil slice). -/
def nilBlocksOp : RepoOperation :=
  { action := "delete", path := "app.bsky.feed.post/x", cid := "",
    blocks := none }

/-- Concrete fixture: the post record of the reply scenario, whose reply
root URI is non-empty. -/
def replyRecord : FeedPost :=
  { text := "hi", createdAt := "",
    reply := some { root := some { uri := "at://did:plc:x/app.bsky.feed.post/1",
                                   cid := "bafyr" },
                    parent := none },
    embed := none, facets := [], labels := none, langs := [], tags := [] }

/-- Concrete fixture: archive for the reply scenario. -/
def replyArchive : CarArchive :=
  { headerOk := true,
    blocks := [{ cid := "bafyc2", record := some replyRecord }],
    truncated := false }

/-- Concrete fixture: the create operation of the reply scenario. -/
def replyOp : RepoOperation :=
  { action := "create", path := "app.bsky.feed.post/3k2y", cid := "bafyc2",
    blocks := some replyArchive }

/-- Concrete fixture: the commit of the reply scenario. -/
def replyEvt : CommitEvent :=
  { repo := "did:plc:abc", time := "t", ops := [replyOp] }

/-- Concrete fixture: one post handler and one comment handler, both
unfiltered and succeeding. -/
def replyCbs : EnhancedFirehoseCallbacks :=
  { postHandlers := [{ filters := [], handler := fun _ => none }],
    commentHandlers := [{ filters := [], handler := fun _ => none }] }

/-- Concrete fixture: the Post of the reply scenario. -/
def replyPost : Post :=
  { repo := "did:plc:abc", rkey := "3k2y", text := "hi", createdAt := "",
    embed := some emptyEmbed, facets := [], labels := [], langs := [],
    tags := [], replyUri := "at://did:plc:x/app.bsky.feed.post/1",
    replyRef := some { root := some { uri := "at://did:plc:x/app.bsky.feed.post/1",
                                      cid := "bafyr" },
                       parent := none } }

/-- Unfolding of runFilters on an accepting head filter. -/
theorem runFilters_cons_true {α : Type} (wrap : α → Ev) (x : α) (h : Nat)
    (f : α → Bool) (fs : List (α → Bool)) (n : Nat) (hf : f x = true) :
    runFilters wrap x h (f :: fs) n =
      (Step.filterEval (wrap x) h n true :: (runFilters wrap x h fs (n + 1)).1,
        (runFilters wrap x h fs (n + 1)).2) := by
  simp [runFilters, hf]

/-- Every step of a filter loop is a filter evaluation for the dispatched
event and handler index. -/
theorem runFilters_mem {α : Type} (wrap : α → Ev) (x : α) (h : Nat)
    (fs : List (α → Bool)) (n : Nat) (s : Step)
    (hm : s ∈ (runFilters wrap x h fs n).1) :
    ∃ i r, s = Step.filterEval (wrap x) h i r := by
  induction fs generalizing n with
  | nil => simp [runFilters] at hm
  | cons f fs ih =>
    simp only [runFilters] at hm
    cases hf : f x with
    | true =>
      simp only [hf, if_true, List.mem_cons] at hm
      rcases hm with rfl | hm
      · exact ⟨n, true, rfl⟩
      · exact ih (n + 1) hm
    | false =>
      simp only [hf, Bool.false_eq_true, if_false, List.mem_singleton] at hm
      exact ⟨n, false, hm⟩

/-- A filter loop whose filters all accept reports shouldProcess. -/
theorem runFilters_all_true {α : Type} (wrap : α → Ev) (x : α) (h : Nat)
    (fs : List (α → Bool)) (n : Nat) (hall : ∀ f ∈ fs, f x = true) :
    (runFilters wrap x h fs n).2 = true := by
  induction fs generalizing n with
  | nil => rfl
  | cons f fs ih =>
    have hf : f x = true := hall f (List.mem_cons_self f fs)
    simp only [runFilters, hf, if_true]
    exact ih (n + 1) (fun g hg => hall g (List.mem_cons_of_mem f hg))

/-- A filter loop that rejects has evaluated at least one filter. -/
theorem runFilters_false_ne_nil {α : Type} (wrap : α → Ev) (x : α) (h : Nat)
    (fs : List (α → Bool)) (n : Nat)
    (hf : (runFilters wrap x h fs n).2 = false) :
    (runFilters wrap x h fs n).1 ≠ [] := by
  induction fs generalizing n with
  | nil => simp [runFilters] at hf
  | cons f fs ih =>
    simp only [runFilters]
    cases hfx : f x with
    | true => simp [hfx]
    | false => simp [hfx]

/-- Filter evaluation short-circuits: with every filter of fs1 accepting
and f rejecting, the loop evaluates exactly the filters of fs1 and then f,
never touching fs2, and reports rejection. -/
theorem runFilters_shortcircuit {α : Type} (wrap : α → Ev) (x : α) (h : Nat)
    (fs1 : List (α → Bool)) (f : α → Bool) (fs2 : List (α → Bool)) (n : Nat)
    (h1 : ∀ g ∈ fs1, g x = true) (h2 : f x = false) :
    runFilters wrap x h (fs1 ++ f :: fs2) n =
      (evalRun (wrap x) h n fs1.length
        ++ [Step.filterEval (wrap x) h (n + fs1.length) false], false) := by
  induction fs1 generalizing n with
  | nil => simp [runFilters, h2, evalRun]
  | cons g gs ih =>
    have hg : g x = true := h1 g (List.mem_cons_self g gs)
    have ih2 := ih (n + 1) (fun g2 hg2 => h1 g2 (List.mem_cons_of_mem g hg2))
    rw [List.cons_append, runFilters_cons_true wrap x h g (gs ++ f :: fs2) n hg, ih2]
    have harith : n + 1 + gs.length = n + (gs.length + 1) := by omega
    simp [evalRun, harith]

/-- Every step of a handler dispatch loop carries the dispatched event,
and its handler index is at least the starting index. -/
theorem runHandlers_mem {α : Type} (wrap : α → Ev) (x : α)
    (hs : List (HandlerWithFilter α)) (n : Nat) (s : Step)
    (hm : s ∈ (runHandlers wrap x hs n).1) :
    (∃ k i r, s = Step.filterEval (wrap x) k i r ∧ n ≤ k ∧ k < n + hs.length) ∨
      (∃ k, s = Step.invoke (wrap x) k ∧ n ≤ k ∧ k < n + hs.length) := by
  induction hs generalizing n with
  | nil => simp [runHandlers] at hm
  | cons hf rest ih =>
    have hlen : n < n + (hf :: rest).length := by simp
    simp only [runHandlers] at hm
    cases hcond : (runFilters wrap x n hf.filters 0).2 with
    | true =>
      simp only [hcond, if_true] at hm
      cases hh : hf.handler x with
      | some e =>
        rw [hh] at hm
        simp only [List.mem_append, List.mem_singleton] at hm
        rcases hm with hm | rfl
        · rcases runFilters_mem wrap x n hf.filters 0 s hm with ⟨i, r, rfl⟩
          exact Or.inl ⟨n, i, r, rfl, Nat.le_refl n, hlen⟩
        · exact Or.inr ⟨n, rfl, Nat.le_refl n, hlen⟩
      | none =>
        rw [hh] at hm
        simp only [List.mem_append, List.mem_cons] at hm
        rcases hm with hm | rfl | hm
        · rcases runFilters_mem wrap x n hf.filters 0 s hm with ⟨i, r, rfl⟩
          exact Or.inl ⟨n, i, r, rfl, Nat.le_refl n, hlen⟩
        · exact Or.inr ⟨n, rfl, Nat.le_refl n, hlen⟩
        · rcases ih (n + 1) hm with ⟨k, i, r, rfl, hk, hk2⟩ | ⟨k, rfl, hk, hk2⟩
          · exact Or.inl ⟨k, i, r, rfl, Nat.le_of_succ_le hk, by simp at hk2 ⊢; omega⟩
          · exact Or.inr ⟨k, rfl, Nat.le_of_succ_le hk, by simp at hk2 ⊢; omega⟩
    | false =>
      simp only [hcond, Bool.false_eq_true, if_false, List.mem_append] at hm
      rcases hm with hm | hm
      · rcases runFilters_mem wrap x n hf.filters 0 s hm with ⟨i, r, rfl⟩
        exact Or.inl ⟨n, i, r, rfl, Nat.le_refl n, hlen⟩
      · rcases ih (n + 1) hm with ⟨k, i, r, rfl, hk, hk2⟩ | ⟨k, rfl, hk, hk2⟩
        · exact Or.inl ⟨k, i, r, rfl, Nat.le_of_succ_le hk, by simp at hk2 ⊢; omega⟩
        · exact Or.inr ⟨k, rfl, Nat.le_of_succ_le hk, by simp at hk2 ⊢; omega⟩

/-- Dispatch over a nonempty handler list records at least one step. -/
theorem runHandlers_ne_nil {α : Type} (wrap : α → Ev) (x : α)
    (hf : HandlerWithFilter α) (rest : List (HandlerWithFilter α)) (n : Nat) :
    (runHandlers wrap x (hf :: rest) n).1 ≠ [] := by
  simp only [runHandlers]
  cases hcond : (runFilters wrap x n hf.filters 0).2 with
  | true =>
    simp only [hcond, if_true]
    cases hh : hf.handler x with
    | some e => simp
    | none => simp
  | false =>
    simp only [hcond, Bool.false_eq_true, if_false]
    intro hemp
    rcases List.append_eq_nil.mp hemp with ⟨hh1, _⟩
    exact runFilters_false_ne_nil wrap x n hf.filters 0 hcond hh1

/-- The shouldProcess flag of a filter loop is true exactly when every
filter in the list accepts. -/
theorem runFilters_spec {α : Type} (wrap : α → Ev) (x : α) (h : Nat)
    (fs : List (α → Bool)) (n : Nat) :
    (runFilters wrap x h fs n).2 = true ↔ ∀ g ∈ fs, g x = true := by
  induction fs generalizing n with
  | nil => simp [runFilters]
  | cons f fs ih =>
    cases hf : f x with
    | true =>
      rw [runFilters_cons_true wrap x h f fs n hf]
      simp only [ih (n + 1), List.mem_cons]
      constructor
      · intro hall g hg
        rcases hg with rfl | hg
        · exact hf
        · exact hall g hg
      · intro hall g hg
        exact hall g (Or.inr hg)
    | false =>
      simp only [runFilters, hf, Bool.false_eq_true, if_false]
      constructor
      · intro hfalse
        exact absurd hfalse (by simp)
      · intro hall
        have := hall f (List.mem_cons_self f fs)
        rw [hf] at this
        exact absurd this (by simp)

/-- A handler whose earlier peers all ran without error and whose filters
all accept aborts the whole dispatch loop when it returns an error: the
trace stops at its invocation (none of hs2 is reached) and the error is
the loop result. -/
theorem runHandlers_append_err {α : Type} (wrap : α → Ev) (x : α)
    (hs1 : List (HandlerWithFilter α)) (hf : HandlerWithFilter α)
    (hs2 : List (HandlerWithFilter α)) (n : Nat) (e : PErr)
    (h1 : (runHandlers wrap x hs1 n).2 = none)
    (h2 : ∀ f ∈ hf.filters, f x = true)
    (h3 : hf.handler x = some e) :
    runHandlers wrap x (hs1 ++ hf :: hs2) n =
      ((runHandlers wrap x hs1 n).1
        ++ (runFilters wrap x (n + hs1.length) hf.filters 0).1
        ++ [Step.invoke (wrap x) (n + hs1.length)], some e) := by
  induction hs1 generalizing n with
  | nil =>
    simp only [List.nil_append, runHandlers,
      runFilters_all_true wrap x n hf.filters 0 h2, if_true, h3,
      List.length_nil, Nat.add_zero]
  | cons hh hs1 ih =>
    cases hcond : (runFilters wrap x n hh.filters 0).2 with
    | true =>
      cases hhh : hh.handler x with
      | some e0 =>
        exfalso
        simp only [runHandlers, hcond, if_true, hhh] at h1
        exact Option.some_ne_none e0 h1
      | none =>
        have h1b : (runHandlers wrap x hs1 (n + 1)).2 = none := by
          simpa only [runHandlers, hcond, if_true, hhh] using h1
        have ihn := ih (n + 1) h1b
        rw [List.cons_append]
        simp only [runHandlers, hcond, if_true, hhh, ihn]
        have harith : n + 1 + hs1.length = n + (hs1.length + 1) := by omega
        simp [List.append_assoc, harith]
    | false =>
      have h1b : (runHandlers wrap x hs1 (n + 1)).2 = none := by
        simpa only [runHandlers, hcond, Bool.false_eq_true, if_false] using h1
      have ihn := ih (n + 1) h1b
      rw [List.cons_append]
      simp only [runHandlers, hcond, Bool.false_eq_true, if_false, ihn]
      have harith : n + 1 + hs1.length = n + (hs1.length + 1) := by omega
      simp [List.append_assoc, harith]

/-- Every step of the raw-operation handler loop is a raw invocation. -/
theorem runRawList_mem (op : RepoOperation)
    (hs : List (RepoOperation → Option PErr)) (n : Nat) (s : Step)
    (hm : s ∈ (runRawList op hs n).1) : ∃ k, s = Step.rawOp k := by
  induction hs generalizing n with
  | nil => simp [runRawList] at hm
  | cons h rest ih =>
    simp only [runRawList] at hm
    cases hh : h op with
    | some e =>
      rw [hh] at hm
      simp only [List.mem_singleton] at hm
      exact ⟨n, hm⟩
    | none =>
      rw [hh] at hm
      simp only [List.mem_cons] at hm
      rcases hm with rfl | hm
      · exact ⟨n, rfl⟩
      · exact ih (n + 1) hm

/-- Whether an event is one of the extraction-free interaction kinds. -/
def isInteractionEv : Ev → Bool
  | Ev.follow _ => true
  | Ev.like _ => true
  | Ev.repost _ => true
  | _ => false

/-- Every step of the follow/like/repost tail carries a follow, like or
repost event. -/
theorem interactionTail_mem (cbs : EnhancedFirehoseCallbacks) (repo : String)
    (now : Nat) (op : RepoOperation) (s : Step)
    (hm : s ∈ (interactionTail cbs repo now op).1) :
    ∃ e, evOf s = some e ∧ isInteractionEv e = true := by
  have hw : ∀ t ∈ (if 0 < cbs.followHandlers.length ∧
        strStartsWith op.path "app.bsky.graph.follow" = true then
        runHandlers Ev.follow (mkFollow repo op.path now) cbs.followHandlers 0
      else ([], none)).1,
      ∃ e, evOf t = some e ∧ isInteractionEv e = true := by
    intro t ht
    split at ht
    · rcases runHandlers_mem _ _ _ _ t ht with ⟨k, i, r, rfl, _⟩ | ⟨k, rfl, _⟩
      · exact ⟨Ev.follow (mkFollow repo op.path now), rfl, rfl⟩
      · exact ⟨Ev.follow (mkFollow repo op.path now), rfl, rfl⟩
    · simp at ht
  have hl : ∀ t ∈ (if 0 < cbs.likeHandlers.length ∧
        strStartsWith op.path "app.bsky.feed.like" = true ∧ op.action = "create" then
        runHandlers Ev.like (mkLike repo op.path now) cbs.likeHandlers 0
      else ([], none)).1,
      ∃ e, evOf t = some e ∧ isInteractionEv e = true := by
    intro t ht
    split at ht
    · rcases runHandlers_mem _ _ _ _ t ht with ⟨k, i, r, rfl, _⟩ | ⟨k, rfl, _⟩
      · exact ⟨Ev.like (mkLike repo op.path now), rfl, rfl⟩
      · exact ⟨Ev.like (mkLike repo op.path now), rfl, rfl⟩
    · simp at ht
  have hr : ∀ t ∈ (if 0 < cbs.repostHandlers.length ∧
        strStartsWith op.path "app.bsky.feed.repost" = true ∧ op.action = "create" then
        runHandlers Ev.repost (mkRepost repo op.path now) cbs.repostHandlers 0
      else ([], none)).1,
      ∃ e, evOf t = some e ∧ isInteractionEv e = true := by
    intro t ht
    split at ht
    · rcases runHandlers_mem _ _ _ _ t ht with ⟨k, i, r, rfl, _⟩ | ⟨k, rfl, _⟩
      · exact ⟨Ev.repost (mkRepost repo op.path now), rfl, rfl⟩
      · exact ⟨Ev.repost (mkRepost repo op.path now), rfl, rfl⟩
    · simp at ht
  simp only [interactionTail] at hm
  split at hm
  · exact hw s hm
  · split at hm
    · rcases List.mem_append.mp hm with hm2 | hm2
      · exact hw s hm2
      · exact hl s hm2
    · rcases List.mem_append.mp hm with hm2 | hm2
      · rcases List.mem_append.mp hm2 with hm3 | hm3
        · exact hw s hm3
        · exact hl s hm3
      · exact hr s hm2

/-- The post branch does nothing when the operation is not a create with a
non-empty cid. -/
theorem postBranch_not_create (cbs : EnhancedFirehoseCallbacks)
    (evt : CommitEvent) (now : Nat) (op : RepoOperation)
    (h : ¬(op.action = "create" ∧ op.cid ≠ "")) :
    postBranch cbs evt now op = ([], none) := by
  simp only [postBranch, if_neg h, ite_self]

/-- The post branch does nothing when no post handlers are registered. -/
theorem postBranch_no_handlers (cbs : EnhancedFirehoseCallbacks)
    (evt : CommitEvent) (now : Nat) (op : RepoOperation)
    (h : cbs.postHandlers = []) :
    postBranch cbs evt now op = ([], none) := by
  simp only [postBranch, h]
  rw [if_neg]
  intro hc
  simp at hc

/-- Reduction of the post branch for a reply post that dispatches its post
handlers without error, with comment handlers registered. -/
theorem postBranch_reply (cbs : EnhancedFirehoseCallbacks)
    (evt : CommitEvent) (now : Nat) (op : RepoOperation) (p : Post)
    (hlen : 0 < cbs.postHandlers.length)
    (hpath : strStartsWith op.path "app.bsky.feed.post" = true)
    (hact : op.action = "create") (hcid : op.cid ≠ "")
    (hx : PostFromCommitEvent evt = Except.ok p)
    (hdisp : (runHandlers Ev.post p cbs.postHandlers 0).2 = none)
    (hclen : 0 < cbs.commentHandlers.length) (hreply : p.replyUri ≠ "") :
    postBranch cbs evt now op =
      (Step.extractAttempt :: (runHandlers Ev.post p cbs.postHandlers 0).1
        ++ (runHandlers Ev.comment (mkComment evt.repo op.path now p)
              cbs.commentHandlers 0).1,
        (runHandlers Ev.comment (mkComment evt.repo op.path now p)
          cbs.commentHandlers 0).2) := by
  simp only [postBranch]
  rw [if_pos ⟨hlen, hpath⟩, if_pos ⟨hact, hcid⟩, hx]
  simp only [hdisp]
  rw [if_pos ⟨hclen, hreply⟩]


/-- C5: a commit with repo did:plc:abc and exactly one operation
{action: create, path: app.bsky.feed.post/3k2x, cid: bafyc1}, whose block
archive contains at bafyc1 a post record with text hello and no reply,
yields — with a post handler registered whose filters accept, and even
with a comment handler registered — exactly one Post domain event with
repo did:plc:abc, rkey 3k2x and text hello, and zero Comment events. -/
theorem c5_end_to_end :
    onCommit helloCbs 0 helloEvt =
      ([Step.extractAttempt, Step.filterEval (Ev.post helloPost) 0 0 true,
        Step.invoke (Ev.post helloPost) 0], none) ∧
    invokedEvents (onCommit helloCbs 0 helloEvt).1 = [Ev.post helloPost] ∧
    helloPost.repo = "did:plc:abc" ∧ helloPost.rkey = "3k2x" ∧
    helloPost.text = "hello" := by
  decide

/-- C1 (code bug): in a commit whose second operation is a post create at
path app.bsky.feed.post/bbb with cid bafyc1, the Post event emitted while
processing that second operation is extracted from the FIRST operation:
it carries rkey aaa (the trailing segment of ops[0].path) and the text of
the record at ops[0].cid, although the record the second operation itself
points to decodes to a different text and its path ends in bbb. -/
theorem c1_first_op_extraction_bug :
    PostFromCommitEvent twoOpsEvt = Except.ok firstPost ∧
    onCommit oneHandlerCbs 0 twoOpsEvt =
      ([Step.extractAttempt, Step.invoke (Ev.post firstPost) 0,
        Step.extractAttempt, Step.invoke (Ev.post firstPost) 0], none) ∧
    invokedEvents (onCommit oneHandlerCbs 0 twoOpsEvt).1
      = [Ev.post firstPost, Ev.post firstPost] ∧
    firstPost.rkey = "aaa" ∧
    trailingSegment twoOpsSecond.path = "bbb" ∧
    RepoOperation.DecodeRecord twoOpsSecond = Except.ok secondRecord ∧
    firstPost.text = "first" ∧ secondRecord.text = "second" := by
  decide

/-- C4 (counterexample): an operation whose Blocks is a present but empty
byte slice — which the CAR reader rejects at the header — and whose cid is
a valid nonempty string makes DecodeRecord fail with the CAR reader
error, not with a missing-input error, refuting the claim that an empty
blocks archive short-circuits to the missing-input error. -/
theorem c4_counterexample :
    RepoOperation.DecodeRecord emptyBytesOp = Except.error PErr.carReaderFail ∧
    isMissingInputErr PErr.carReaderFail = false ∧
    emptyBytesOp.cid ≠ "" := by
  decide

/-- C4 (amended): if the blocks slice is nil or the cid string is empty,
DecodeRecord fails with a missing-input error, before any parsing of the
cid or the archive is attempted (the result is fixed whatever the cid
text and the archive contents are). -/
theorem c4_missing_input (op : RepoOperation)
    (h : op.blocks = none ∨ op.cid = "") :
    ∃ e, RepoOperation.DecodeRecord op = Except.error e ∧
      isMissingInputErr e = true := by
  rcases h with h | h
  · exact ⟨PErr.noBlocksDecode, by simp [RepoOperation.DecodeRecord, h], rfl⟩
  · cases hb : op.blocks with
    | none =>
      exact ⟨PErr.noBlocksDecode, by simp [RepoOperation.DecodeRecord, hb], rfl⟩
    | some ar =>
      exact ⟨PErr.noCid, by simp [RepoOperation.DecodeRecord, hb, h], rfl⟩

/-- Witness for c4_missing_input at the concrete nil-blocks delete
operation. -/
theorem c4_missing_input_witness :
    ∃ e, RepoOperation.DecodeRecord nilBlocksOp = Except.error e ∧
      isMissingInputErr e = true :=
  c4_missing_input nilBlocksOp (Or.inl rfl)

/-- Steps carrying a follow, like or repost event are neither post events
nor extraction attempts. -/
theorem interaction_step_not_post (t : Step)
    (h : ∃ e, evOf t = some e ∧ isInteractionEv e = true) :
    (∀ q : Post, evOf t ≠ some (Ev.post q)) ∧ t ≠ Step.extractAttempt := by
  rcases h with ⟨e, hev, hint⟩
  constructor
  · intro q hq
    rw [hev] at hq
    injection hq with hq2
    subst hq2
    simp [isInteractionEv] at hint
  · intro hteq
    rw [hteq] at hev
    simp [evOf] at hev

/-- A raw-operation step is neither a post event nor an extraction
attempt. -/
theorem rawOp_step_not_post (k : Nat) :
    (∀ q : Post, evOf (Step.rawOp k) ≠ some (Ev.post q)) ∧
      Step.rawOp k ≠ Step.extractAttempt := by
  constructor
  · intro q hq
    simp [evOf] at hq
  · intro h
    cases h

/-- C6: a post-collection operation whose action is update or delete
produces no Post domain event and never calls the record extractor, even
when it carries a valid cid, a matching block exists in the archive and
post handlers are registered (the statement quantifies over all
registration sets, commits and operations). -/
theorem c6_no_post_for_update_delete (cbs : EnhancedFirehoseCallbacks)
    (evt : CommitEvent) (now : Nat) (op : RepoOperation)
    (_hpath : strStartsWith op.path "app.bsky.feed.post" = true)
    (hact : op.action = "update" ∨ op.action = "delete") :
    ∀ s ∈ (processOp cbs evt now op).1,
      (∀ q : Post, evOf s ≠ some (Ev.post q)) ∧ s ≠ Step.extractAttempt := by
  have hnc : ¬(op.action = "create" ∧ op.cid ≠ "") := by
    rcases hact with h | h <;> simp [h]
  have hpb := postBranch_not_create cbs evt now op hnc
  intro s hs
  cases hraw : (runRawList op cbs.handlers 0).2 with
  | some e =>
    simp only [processOp, hraw, hpb, List.append_nil] at hs
    rcases runRawList_mem op cbs.handlers 0 s hs with ⟨k, rfl⟩
    exact rawOp_step_not_post k
  | none =>
    simp only [processOp, hraw, hpb, List.append_nil] at hs
    rcases List.mem_append.mp hs with hm | hm
    · rcases runRawList_mem op cbs.handlers 0 s hm with ⟨k, rfl⟩
      exact rawOp_step_not_post k
    · exact interaction_step_not_post s
        (interactionTail_mem cbs evt.repo now op s hm)

/-- Witness for c6_no_post_for_update_delete: an update to an existing
post record, with raw and post handlers registered; the one step of its
processing (the raw invocation) is neither a Post event nor an extraction
attempt. -/
theorem c6_witness :
    evOf (Step.rawOp 0) ≠ some (Ev.post helloPost) ∧
      Step.rawOp 0 ≠ Step.extractAttempt :=
  ⟨(c6_no_post_for_update_delete rawCbs helloEvt 0 updateOp (by decide)
      (Or.inl rfl) (Step.rawOp 0) (by decide)).1 helloPost,
    (c6_no_post_for_update_delete rawCbs helloEvt 0 updateOp (by decide)
      (Or.inl rfl) (Step.rawOp 0) (by decide)).2⟩

/-- C9: with zero post handlers registered, processing a commit never
invokes the binary record extractor — no extraction attempt appears in
the trace, whatever operations the commit carries. -/
theorem c9_no_extraction_without_post_handlers
    (cbs : EnhancedFirehoseCallbacks) (now : Nat) (evt : CommitEvent)
    (h : cbs.postHandlers = []) :
    Step.extractAttempt ∉ (onCommit cbs now evt).1 := by
  suffices h2 : ∀ ops, Step.extractAttempt ∉ (onCommitOps cbs evt now ops).1 by
    exact h2 evt.ops
  intro ops
  induction ops with
  | nil => simp [onCommitOps]
  | cons op rest ih =>
    have hproc : Step.extractAttempt ∉ (processOp cbs evt now op).1 := by
      intro hs
      have hpb := postBranch_no_handlers cbs evt now op h
      cases hraw : (runRawList op cbs.handlers 0).2 with
      | some e =>
        simp only [processOp, hraw, hpb, List.append_nil] at hs
        rcases runRawList_mem op cbs.handlers 0 _ hs with ⟨k, hk⟩
        cases hk
      | none =>
        simp only [processOp, hraw, hpb, List.append_nil] at hs
        rcases List.mem_append.mp hs with hm | hm
        · rcases runRawList_mem op cbs.handlers 0 _ hm with ⟨k, hk⟩
          cases hk
        · rcases interactionTail_mem cbs evt.repo now op _ hm with ⟨e, hev, _⟩
          simp [evOf] at hev
    intro hs
    cases hr : (processOp cbs evt now op).2 with
    | some e =>
      simp only [onCommitOps, hr] at hs
      exact hproc hs
    | none =>
      simp only [onCommitOps, hr] at hs
      rcases List.mem_append.mp hs with hm | hm
      · exact hproc hm
      · exact ih hm

/-- Witness for c9_no_extraction_without_post_handlers: a post-collection
create with a decodable block, raw and comment handlers registered but no
post handler. -/
theorem c9_witness :
    Step.extractAttempt ∉ (onCommit noPostCbs 0 helloEvt).1 :=
  c9_no_extraction_without_post_handlers noPostCbs 0 helloEvt rfl

/-- Every step of a handler dispatch loop carries the dispatched event. -/
theorem runHandlers_evOf {α : Type} (wrap : α → Ev) (x : α)
    (hs : List (HandlerWithFilter α)) (n : Nat) (s : Step)
    (hm : s ∈ (runHandlers wrap x hs n).1) : evOf s = some (wrap x) := by
  rcases runHandlers_mem wrap x hs n s hm with ⟨k, i, r, rfl, _⟩ | ⟨k, rfl, _⟩
  · rfl
  · rfl

/-- Dispatch over a nonempty handler list records a step carrying the
dispatched event. -/
theorem runHandlers_exists_step {α : Type} (wrap : α → Ev) (x : α)
    (hf : HandlerWithFilter α) (rest : List (HandlerWithFilter α)) (n : Nat) :
    ∃ s ∈ (runHandlers wrap x (hf :: rest) n).1, evOf s = some (wrap x) := by
  rcases List.exists_mem_of_ne_nil _ (runHandlers_ne_nil wrap x hf rest n)
    with ⟨s, hs⟩
  exact ⟨s, hs, runHandlers_evOf wrap x (hf :: rest) n s hs⟩

/-- C2: whenever processing an operation derives a Post with a non-empty
reply-root URI and comment handlers are registered (and the raw handlers
and post handlers ran without error), exactly one Comment domain event is
synthesized for that operation — with actor the commit repo, subject the
operation path, uri the post AT URI, replyTo the reply-root URI and text
the post text — and its dispatch steps all come after every post handler
invocation of that operation: the trace splits into a prefix holding the
whole post dispatch and free of comment events, and a suffix holding
every comment step, all carrying that single Comment value. -/
theorem c2_comment_synthesis (cbs : EnhancedFirehoseCallbacks)
    (evt : CommitEvent) (now : Nat) (op : RepoOperation) (p : Post)
    (hraw : (runRawList op cbs.handlers 0).2 = none)
    (hlen : 0 < cbs.postHandlers.length)
    (hpath : strStartsWith op.path "app.bsky.feed.post" = true)
    (hact : op.action = "create") (hcid : op.cid ≠ "")
    (hx : PostFromCommitEvent evt = Except.ok p)
    (hdisp : (runHandlers Ev.post p cbs.postHandlers 0).2 = none)
    (hreply : p.replyUri ≠ "") (hclen : 0 < cbs.commentHandlers.length) :
    (mkComment evt.repo op.path now p).interaction.actor = evt.repo ∧
    (mkComment evt.repo op.path now p).interaction.subject = op.path ∧
    (mkComment evt.repo op.path now p).uri = Post.Uri p ∧
    (mkComment evt.repo op.path now p).replyTo = p.replyUri ∧
    (mkComment evt.repo op.path now p).text = p.text ∧
    ∃ t1 t2, (processOp cbs evt now op).1 = t1 ++ t2 ∧
      t1 = (runRawList op cbs.handlers 0).1
        ++ Step.extractAttempt :: (runHandlers Ev.post p cbs.postHandlers 0).1 ∧
      (∀ s ∈ t1, ∀ cc : Comment, evOf s ≠ some (Ev.comment cc)) ∧
      (∀ s ∈ t2, ∀ q : Post, ∀ k : Nat, s ≠ Step.invoke (Ev.post q) k) ∧
      (∀ s ∈ t2, ∀ cc : Comment, evOf s = some (Ev.comment cc) →
        cc = mkComment evt.repo op.path now p) ∧
      (∃ s ∈ t2, evOf s = some (Ev.comment (mkComment evt.repo op.path now p))) := by
  refine ⟨rfl, rfl, rfl, rfl, rfl, ?_⟩
  have hpb := postBranch_reply cbs evt now op p hlen hpath hact hcid hx hdisp
    hclen hreply
  have ht1 : ∀ s ∈ (runRawList op cbs.handlers 0).1
      ++ Step.extractAttempt :: (runHandlers Ev.post p cbs.postHandlers 0).1,
      ∀ cc : Comment, evOf s ≠ some (Ev.comment cc) := by
    intro s hs cc hev
    rcases List.mem_append.mp hs with hm | hm
    · rcases runRawList_mem op cbs.handlers 0 s hm with ⟨k, rfl⟩
      simp [evOf] at hev
    · rcases List.mem_cons.mp hm with rfl | hm2
      · simp [evOf] at hev
      · rw [runHandlers_evOf Ev.post p cbs.postHandlers 0 s hm2] at hev
        injection hev with hev2
        cases hev2
  have hct : ∀ s ∈ (runHandlers Ev.comment (mkComment evt.repo op.path now p)
      cbs.commentHandlers 0).1,
      (∀ q : Post, ∀ k : Nat, s ≠ Step.invoke (Ev.post q) k) ∧
      (∀ cc : Comment, evOf s = some (Ev.comment cc) →
        cc = mkComment evt.repo op.path now p) := by
    intro s hs
    have hev := runHandlers_evOf Ev.comment (mkComment evt.repo op.path now p)
      cbs.commentHandlers 0 s hs
    constructor
    · intro q k heq
      rw [heq] at hev
      simp only [evOf] at hev
      injection hev with hev2
      cases hev2
    · intro cc hcc
      rw [hev] at hcc
      injection hcc with hcc2
      injection hcc2 with hcc3
      exact hcc3.symm
  have hit : ∀ s ∈ (interactionTail cbs evt.repo now op).1,
      (∀ q : Post, ∀ k : Nat, s ≠ Step.invoke (Ev.post q) k) ∧
      (∀ cc : Comment, evOf s = some (Ev.comment cc) →
        cc = mkComment evt.repo op.path now p) := by
    intro s hs
    rcases interactionTail_mem cbs evt.repo now op s hs with ⟨e, hev, hint⟩
    constructor
    · intro q k heq
      rw [heq] at hev
      simp only [evOf] at hev
      injection hev with hev2
      subst hev2
      simp [isInteractionEv] at hint
    · intro cc hcc
      rw [hev] at hcc
      injection hcc with hcc2
      subst hcc2
      simp [isInteractionEv] at hint
  have hex : ∃ s ∈ (runHandlers Ev.comment (mkComment evt.repo op.path now p)
      cbs.commentHandlers 0).1,
      evOf s = some (Ev.comment (mkComment evt.repo op.path now p)) := by
    cases hcl : cbs.commentHandlers with
    | nil => rw [hcl] at hclen; simp at hclen
    | cons hf rest =>
      exact runHandlers_exists_step Ev.comment (mkComment evt.repo op.path now p)
        hf rest 0
  cases hce : (runHandlers Ev.comment (mkComment evt.repo op.path now p)
      cbs.commentHandlers 0).2 with
  | some e =>
    refine ⟨(runRawList op cbs.handlers 0).1
        ++ Step.extractAttempt :: (runHandlers Ev.post p cbs.postHandlers 0).1,
      (runHandlers Ev.comment (mkComment evt.repo op.path now p)
        cbs.commentHandlers 0).1, ?_, rfl, ht1, ?_, ?_, hex⟩
    · simp only [processOp, hraw, hpb, hce, List.append_assoc, List.cons_append]
    · intro s hs
      exact (hct s hs).1
    · intro s hs
      exact (hct s hs).2
  | none =>
    refine ⟨(runRawList op cbs.handlers 0).1
        ++ Step.extractAttempt :: (runHandlers Ev.post p cbs.postHandlers 0).1,
      (runHandlers Ev.comment (mkComment evt.repo op.path now p)
        cbs.commentHandlers 0).1 ++ (interactionTail cbs evt.repo now op).1,
      ?_, rfl, ht1, ?_, ?_, ?_⟩
    · simp only [processOp, hraw, hpb, hce, List.append_assoc, List.cons_append]
    · intro s hs
      rcases List.mem_append.mp hs with hm | hm
      · exact (hct s hm).1
      · exact (hit s hm).1
    · intro s hs
      rcases List.mem_append.mp hs with hm | hm
      · exact (hct s hm).2
      · exact (hit s hm).2
    · rcases hex with ⟨s, hs, hev⟩
      exact ⟨s, List.mem_append.mpr (Or.inl hs), hev⟩

/-- Witness for c2_comment_synthesis at the concrete reply scenario. -/
theorem c2_witness :
    (mkComment replyEvt.repo replyOp.path 0 replyPost).interaction.actor
        = replyEvt.repo ∧
    (mkComment replyEvt.repo replyOp.path 0 replyPost).interaction.subject
        = replyOp.path ∧
    (mkComment replyEvt.repo replyOp.path 0 replyPost).uri = Post.Uri replyPost ∧
    (mkComment replyEvt.repo replyOp.path 0 replyPost).replyTo
        = replyPost.replyUri ∧
    (mkComment replyEvt.repo replyOp.path 0 replyPost).text = replyPost.text ∧
    ∃ t1 t2, (processOp replyCbs replyEvt 0 replyOp).1 = t1 ++ t2 ∧
      t1 = (runRawList replyOp replyCbs.handlers 0).1
        ++ Step.extractAttempt
          :: (runHandlers Ev.post replyPost replyCbs.postHandlers 0).1 ∧
      (∀ s ∈ t1, ∀ cc : Comment, evOf s ≠ some (Ev.comment cc)) ∧
      (∀ s ∈ t2, ∀ q : Post, ∀ k : Nat, s ≠ Step.invoke (Ev.post q) k) ∧
      (∀ s ∈ t2, ∀ cc : Comment, evOf s = some (Ev.comment cc) →
        cc = mkComment replyEvt.repo replyOp.path 0 replyPost) ∧
      (∃ s ∈ t2, evOf s
        = some (Ev.comment (mkComment replyEvt.repo replyOp.path 0 replyPost))) :=
  c2_comment_synthesis replyCbs replyEvt 0 replyOp replyPost rfl (by decide)
    (by decide) rfl (by decide) (by decide) (by decide) (by decide) (by decide)

/-- C7: a handler error aborts dispatch and propagates. First, for every
event kind: when the handlers before hf all ran without error, hf's
filters all accept and hf's handler returns an error, the dispatch loop
stops at hf's invocation — nothing of hs2 runs — and returns that error.
Second, at the commit level: when the failing handler is a post handler,
the whole OnCommit callback returns that error, its trace ends at the
failing invocation, no handler with a later index is invoked, and no
later operation of the commit is processed (the trace is independent of
the remaining operations). -/
theorem c7_handler_error_aborts :
    (∀ (α : Type) (wrap : α → Ev) (x : α)
        (hs1 : List (HandlerWithFilter α)) (hf : HandlerWithFilter α)
        (hs2 : List (HandlerWithFilter α)) (n : Nat) (e : PErr),
      (runHandlers wrap x hs1 n).2 = none →
      (∀ f ∈ hf.filters, f x = true) →
      hf.handler x = some e →
      runHandlers wrap x (hs1 ++ hf :: hs2) n =
        ((runHandlers wrap x hs1 n).1
          ++ (runFilters wrap x (n + hs1.length) hf.filters 0).1
          ++ [Step.invoke (wrap x) (n + hs1.length)], some e)) ∧
    (∀ (cbs : EnhancedFirehoseCallbacks) (evt : CommitEvent) (now : Nat)
        (op : RepoOperation) (rest : List RepoOperation) (p : Post)
        (hs1 : List (HandlerWithFilter Post)) (hf : HandlerWithFilter Post)
        (hs2 : List (HandlerWithFilter Post)) (e : PErr),
      evt.ops = op :: rest →
      cbs.handlers = [] →
      cbs.postHandlers = hs1 ++ hf :: hs2 →
      strStartsWith op.path "app.bsky.feed.post" = true →
      op.action = "create" → op.cid ≠ "" →
      PostFromCommitEvent evt = Except.ok p →
      (runHandlers Ev.post p hs1 0).2 = none →
      (∀ f ∈ hf.filters, f p = true) →
      hf.handler p = some e →
      onCommit cbs now evt =
        (Step.extractAttempt :: ((runHandlers Ev.post p hs1 0).1
          ++ (runFilters Ev.post p hs1.length hf.filters 0).1
          ++ [Step.invoke (Ev.post p) hs1.length]), some e) ∧
      (∀ (ev : Ev) (k : Nat),
        Step.invoke ev k ∈ (onCommit cbs now evt).1 → k ≤ hs1.length)) := by
  constructor
  · intro α wrap x hs1 hf hs2 n e h1 h2 h3
    exact runHandlers_append_err wrap x hs1 hf hs2 n e h1 h2 h3
  · intro cbs evt now op rest p hs1 hf hs2 e hops hhnd hph hpath hact hcid hx
      h1 h2 h3
    have hrh := runHandlers_append_err Ev.post p hs1 hf hs2 0 e h1 h2 h3
    rw [Nat.zero_add] at hrh
    have hlen : 0 < cbs.postHandlers.length := by
      rw [hph]
      simp
    have hpb : postBranch cbs evt now op =
        (Step.extractAttempt :: ((runHandlers Ev.post p hs1 0).1
          ++ (runFilters Ev.post p hs1.length hf.filters 0).1
          ++ [Step.invoke (Ev.post p) hs1.length]), some e) := by
      simp only [postBranch]
      rw [if_pos ⟨hlen, hpath⟩, if_pos ⟨hact, hcid⟩, hx]
      simp only [hph, hrh]
    have hrawn : (runRawList op cbs.handlers 0).2 = none := by
      rw [hhnd]
      rfl
    have hraw1 : (runRawList op cbs.handlers 0).1 = [] := by
      rw [hhnd]
      rfl
    have htrace : onCommit cbs now evt =
        (Step.extractAttempt :: ((runHandlers Ev.post p hs1 0).1
          ++ (runFilters Ev.post p hs1.length hf.filters 0).1
          ++ [Step.invoke (Ev.post p) hs1.length]), some e) := by
      unfold onCommit
      rw [hops]
      simp only [onCommitOps, processOp, hrawn, hpb, hraw1, List.nil_append]
    refine ⟨htrace, ?_⟩
    intro ev k hm
    rw [htrace] at hm
    rcases List.mem_cons.mp hm with heq | hm2
    · cases heq
    · rcases List.mem_append.mp hm2 with hm3 | hm4
      · rcases List.mem_append.mp hm3 with hm5 | hm6
        · rcases runHandlers_mem Ev.post p hs1 0 _ hm5 with ⟨j, i, r, heq, _⟩ |
            ⟨j, heq, _, hub⟩
          · cases heq
          · injection heq with heq1 heq2
            subst heq2
            simp only [Nat.zero_add] at hub
            exact Nat.le_of_lt hub
        · rcases runFilters_mem Ev.post p hs1.length hf.filters 0 _ hm6
            with ⟨i, r, heq⟩
          cases heq
      · rcases List.mem_singleton.mp hm4 with heq
        injection heq with heq1 heq2
        subst heq2
        exact Nat.le_refl _

/-- Witness for c7_handler_error_aborts: three registered post handlers,
the second failing, on the concrete hello commit. -/
theorem c7_witness :
    onCommit c7Cbs 0 helloEvt =
      (Step.extractAttempt
        :: ((runHandlers Ev.post helloPost [okPostHandler] 0).1
          ++ (runFilters Ev.post helloPost
                ([okPostHandler] : List (HandlerWithFilter Post)).length
                errPostHandler.filters 0).1
          ++ [Step.invoke (Ev.post helloPost)
                ([okPostHandler] : List (HandlerWithFilter Post)).length]),
        some (PErr.userErr "boom")) ∧
    (∀ (ev : Ev) (k : Nat),
      Step.invoke ev k ∈ (onCommit c7Cbs 0 helloEvt).1 →
        k ≤ ([okPostHandler] : List (HandlerWithFilter Post)).length) :=
  c7_handler_error_aborts.2 c7Cbs helloEvt 0 helloOp [] helloPost
    [okPostHandler] errPostHandler [okPostHandler] (PErr.userErr "boom")
    rfl rfl rfl (by decide) rfl (by decide) (by decide) rfl
    (by intro f hf; exact absurd hf (by simp [errPostHandler])) rfl

/-- A handler is invoked exactly when every filter of its list accepts the
event (stated for the handler at the head of the remaining registration
list, whose index is the loop counter). -/
theorem runHandlers_invoke_iff {α : Type} (wrap : α → Ev) (x : α)
    (hf : HandlerWithFilter α) (rest : List (HandlerWithFilter α)) (n : Nat) :
    Step.invoke (wrap x) n ∈ (runHandlers wrap x (hf :: rest) n).1 ↔
      ∀ g ∈ hf.filters, g x = true := by
  constructor
  · intro hm
    by_contra hnall
    have hfr : (runFilters wrap x n hf.filters 0).2 = false := by
      cases hb : (runFilters wrap x n hf.filters 0).2
      · rfl
      · exact absurd ((runFilters_spec wrap x n hf.filters 0).mp hb) hnall
    simp only [runHandlers, hfr, Bool.false_eq_true, if_false] at hm
    rcases List.mem_append.mp hm with hm2 | hm2
    · rcases runFilters_mem wrap x n hf.filters 0 _ hm2 with ⟨i, r, heq⟩
      cases heq
    · rcases runHandlers_mem wrap x rest (n + 1) _ hm2
        with ⟨k, i, r, heq, _⟩ | ⟨k, heq, hk, _⟩
      · cases heq
      · injection heq with heq1 heq2
        subst heq2
        omega
  · intro hall
    have hfr := runFilters_all_true wrap x n hf.filters 0 hall
    simp only [runHandlers, hfr, if_true]
    cases hh : hf.handler x with
    | some e => simp
    | none => simp

/-- C8: filters are a short-circuiting conjunction evaluated in list
order. First: with every filter of fs1 accepting and f rejecting, the
filter loop evaluates exactly the fs1 filters (all true) and then f, so
the filters of fs2 are never evaluated, and it reports rejection.
Second: such a handler is not invoked. Third: a handler is invoked
exactly when every filter in its list accepts. -/
theorem c8_filter_short_circuit :
    (∀ (α : Type) (wrap : α → Ev) (x : α) (h : Nat) (fs1 : List (α → Bool))
        (f : α → Bool) (fs2 : List (α → Bool)) (n : Nat),
      (∀ g ∈ fs1, g x = true) → f x = false →
      runFilters wrap x h (fs1 ++ f :: fs2) n =
        (evalRun (wrap x) h n fs1.length
          ++ [Step.filterEval (wrap x) h (n + fs1.length) false], false)) ∧
    (∀ (α : Type) (wrap : α → Ev) (x : α) (fs1 : List (α → Bool))
        (f : α → Bool) (fs2 : List (α → Bool)) (hdl : α → Option PErr)
        (rest : List (HandlerWithFilter α)) (n : Nat),
      (∀ g ∈ fs1, g x = true) → f x = false →
      Step.invoke (wrap x) n ∉
        (runHandlers wrap x
          ({ filters := fs1 ++ f :: fs2, handler := hdl } :: rest) n).1) ∧
    (∀ (α : Type) (wrap : α → Ev) (x : α) (hf : HandlerWithFilter α)
        (rest : List (HandlerWithFilter α)) (n : Nat),
      Step.invoke (wrap x) n ∈ (runHandlers wrap x (hf :: rest) n).1 ↔
        ∀ g ∈ hf.filters, g x = true) := by
  refine ⟨?_, ?_, ?_⟩
  · intro α wrap x h fs1 f fs2 n h1 h2
    exact runFilters_shortcircuit wrap x h fs1 f fs2 n h1 h2
  · intro α wrap x fs1 f fs2 hdl rest n h1 h2 hm
    have hall := (runHandlers_invoke_iff wrap x _ rest n).mp hm
    have hft : f x = true := hall f (by simp)
    rw [h2] at hft
    cases hft
  · intro α wrap x hf rest n
    exact runHandlers_invoke_iff wrap x hf rest n

/-- Witness for c8_filter_short_circuit: filters [true, false, true] on a
concrete post event: the trailing true filter is never evaluated and the
handler is not invoked. -/
theorem c8_witness :
    runFilters Ev.post helloPost 0
        ([fun _ => true] ++ (fun _ => false) :: [fun _ => true]) 0 =
      (evalRun (Ev.post helloPost) 0 0
          ([fun (_ : Post) => true] : List (Post → Bool)).length
        ++ [Step.filterEval (Ev.post helloPost) 0
              (0 + ([fun (_ : Post) => true] : List (Post → Bool)).length)
              false], false) ∧
    Step.invoke (Ev.post helloPost) 0 ∉
      (runHandlers Ev.post helloPost
        ({ filters := [fun _ => true] ++ (fun _ => false) :: [fun _ => true],
           handler := fun _ => none } :: []) 0).1 :=
  ⟨c8_filter_short_circuit.1 Post Ev.post helloPost 0 [fun _ => true]
      (fun _ => false) [fun _ => true] 0
      (by intro g hg; cases List.mem_singleton.mp hg; rfl) rfl,
    c8_filter_short_circuit.2.1 Post Ev.post helloPost [fun _ => true]
      (fun _ => false) [fun _ => true] (fun _ => none) [] 0
      (by intro g hg; cases List.mem_singleton.mp hg; rfl) rfl⟩

/-- No connection attempt appears among delivered frames of other
callback sets: a frame list mapped to deliveries counts zero connection
attempts. -/
theorem countP_frames_zero {κ : Type} (cb : κ) (fs : List Frame) :
    (fs.map (SupStep.frameDelivered cb)).countP (fun st => isConnectStep st)
      = 0 := by
  induction fs with
  | nil => rfl
  | cons f fs ihf => simp [List.countP_cons, isConnectStep, ihf]

/-- C3: supervision of the read loop. First: when a session connects and
its read loop terminates with a (non-nil) error — a clean end of stream
surfaces as such an error value — the supervisor delivers the frames,
sleeps the fixed 5 second delay, and re-invokes connect plus the read
loop on the remaining sessions with the same callback set. Second: every
step of a subscription run uses exactly the callback set passed to
Subscribe. Third: after a failed first run followed by a successful
second connection, every frame of the second attempt is delivered after
the sleep, with the same callbacks. Fourth: retries are unbounded — for
any number of erroring sessions, one connection attempt is made per
session, with no retry cap. -/
theorem c3_reconnect_supervision :
    (∀ (κ : Type) (cb : κ) (s : SessionBehavior)
        (rest : List SessionBehavior) (e : PErr),
      s.connectOk = true → s.runErr = some e →
      subscribeRun cb (s :: rest) =
        SupStep.connectAttempt cb
          :: (s.frames.map (SupStep.frameDelivered cb)
            ++ SupStep.sleep 5 :: subscribeRun cb rest)) ∧
    (∀ (κ : Type) (cb : κ) (sessions : List SessionBehavior) (st : SupStep κ),
      st ∈ subscribeRun cb sessions →
        stepCb st = none ∨ stepCb st = some cb) ∧
    (∀ (κ : Type) (cb : κ) (s1 s2 : SessionBehavior)
        (rest : List SessionBehavior) (e : PErr) (f : Frame),
      s1.connectOk = true → s1.runErr = some e → s2.connectOk = true →
      f ∈ s2.frames →
      ∃ (t1 t2 : List (SupStep κ)), subscribeRun cb (s1 :: s2 :: rest)
          = t1 ++ SupStep.sleep 5 :: t2 ∧
        SupStep.frameDelivered cb f ∈ t2) ∧
    (∀ (κ : Type) (cb : κ) (sessions : List SessionBehavior),
      (∀ s ∈ sessions, s.connectOk = true ∧ (s.runErr).isSome = true) →
      (subscribeRun cb sessions).countP (fun st => isConnectStep st)
        = sessions.length) := by
  have hone : ∀ (κ : Type) (cb : κ) (s : SessionBehavior)
      (rest : List SessionBehavior) (e : PErr),
      s.connectOk = true → s.runErr = some e →
      subscribeRun cb (s :: rest) =
        SupStep.connectAttempt cb
          :: (s.frames.map (SupStep.frameDelivered cb)
            ++ SupStep.sleep 5 :: subscribeRun cb rest) := by
    intro κ cb s rest e hc he
    simp [subscribeRun, hc, he]
  refine ⟨hone, ?_, ?_, ?_⟩
  · intro κ cb sessions
    induction sessions with
    | nil =>
      intro st h
      simp [subscribeRun] at h
    | cons s rest ih =>
      intro st h
      simp only [subscribeRun, List.mem_cons] at h
      rcases h with rfl | h
      · exact Or.inr rfl
      · cases hco : s.connectOk with
        | true =>
          rw [hco] at h
          simp only [if_true] at h
          rcases List.mem_append.mp h with hm | hm
          · rcases List.mem_map.mp hm with ⟨f, _, rfl⟩
            exact Or.inr rfl
          · cases hre : s.runErr with
            | some e =>
              rw [hre] at hm
              rcases List.mem_cons.mp hm with rfl | hm2
              · exact Or.inl rfl
              · exact ih st hm2
            | none =>
              rw [hre] at hm
              simp at hm
        | false =>
          rw [hco] at h
          simp only [Bool.false_eq_true, if_false, List.mem_singleton] at h
          rw [h]
          exact Or.inl rfl
  · intro κ cb s1 s2 rest e f hc1 he1 hc2 hf
    refine ⟨(SupStep.connectAttempt cb
        :: s1.frames.map (SupStep.frameDelivered cb) : List (SupStep κ)),
      subscribeRun cb (s2 :: rest), ?_, ?_⟩
    · rw [hone κ cb s1 (s2 :: rest) e hc1 he1]
      simp
    · simp only [subscribeRun, hc2, if_true]
      refine List.mem_cons_of_mem _ (List.mem_append.mpr (Or.inl ?_))
      exact List.mem_map.mpr ⟨f, hf, rfl⟩
  · intro κ cb sessions
    induction sessions with
    | nil =>
      intro hall
      rfl
    | cons s rest ih =>
      intro hall
      have hc : s.connectOk = true := (hall s (List.mem_cons_self s rest)).1
      rcases Option.isSome_iff_exists.mp
        (hall s (List.mem_cons_self s rest)).2 with ⟨e, he⟩
      have ihr := ih (fun s2 h2 => hall s2 (List.mem_cons_of_mem s h2))
      rw [hone κ cb s rest e hc he]
      simp only [List.countP_cons, List.countP_append, countP_frames_zero,
        ihr, List.length_cons]
      simp [isConnectStep]

/-- C10: nil callbacks at the two subscription surfaces. The base
Firehose.Subscribe given nil callbacks returns the callbacks-cannot-be-nil
error without attempting any connection (empty trace), whatever the
transport would have done. EnhancedFirehose.Subscribe given nil
substitutes the zero-value registration set — every handler list empty —
builds the base callbacks from it and proceeds to subscribe: its first
observable step is a connection attempt carrying that callback set. -/
theorem c10_nil_callbacks_asymmetry :
    (∀ (κ : Type) (sessions : List SessionBehavior),
      baseSubscribe (κ := κ) none sessions = ([], some PErr.nilCallbacks)) ∧
    (∀ (now : Nat) (sessions : List SessionBehavior),
      enhancedSubscribe now none sessions =
        baseSubscribe (some (mkBaseCallbacks now {})) sessions) ∧
    (∀ (now : Nat) (s : SessionBehavior) (rest : List SessionBehavior),
      ((enhancedSubscribe now none (s :: rest)).1).head? =
        some (SupStep.connectAttempt (mkBaseCallbacks now {}))) ∧
    (({} : EnhancedFirehoseCallbacks).handlers = [] ∧
      ({} : EnhancedFirehoseCallbacks).postHandlers = [] ∧
      ({} : EnhancedFirehoseCallbacks).handleHandlers = [] ∧
      ({} : EnhancedFirehoseCallbacks).infoHandlers = [] ∧
      ({} : EnhancedFirehoseCallbacks).migrateHandlers = [] ∧
      ({} : EnhancedFirehoseCallbacks).tombstoneHandlers = [] ∧
      ({} : EnhancedFirehoseCallbacks).followHandlers = [] ∧
      ({} : EnhancedFirehoseCallbacks).likeHandlers = [] ∧
      ({} : EnhancedFirehoseCallbacks).repostHandlers = [] ∧
      ({} : EnhancedFirehoseCallbacks).commentHandlers = []) :=
  ⟨fun _ _ => rfl, fun _ _ => rfl, fun _ _ _ => rfl,
    rfl, rfl, rfl, rfl, rfl, rfl, rfl, rfl, rfl, rfl⟩

/-- Witness for c3_reconnect_supervision: a first session that fails with
the end-of-stream error followed by a successful one; the reconnect
happens after the 5 second sleep with the same callback identity, and the
second attempt's frame is delivered after the sleep. -/
theorem c3_witness :
    subscribeRun (0 : Nat) [sessA, sessB] =
      SupStep.connectAttempt 0
        :: (sessA.frames.map (SupStep.frameDelivered 0)
          ++ SupStep.sleep 5 :: subscribeRun 0 [sessB]) ∧
    (∃ (t1 t2 : List (SupStep Nat)), subscribeRun (0 : Nat) [sessA, sessB]
        = t1 ++ SupStep.sleep 5 :: t2 ∧
      SupStep.frameDelivered 0 (Frame.info { name := "b", message := "" })
        ∈ t2) :=
  ⟨c3_reconnect_supervision.1 Nat 0 sessA [sessB] PErr.eof rfl rfl,
    c3_reconnect_supervision.2.2.1 Nat 0 sessA sessB [] PErr.eof
      (Frame.info { name := "b", message := "" }) rfl rfl rfl (by decide)⟩
